import Mathlib

/-!
Verification of the WorkbenchStore orchestrator of the bolt.new-plus
repository.  The data model and the operations are shallowly embedded:
JavaScript objects used as string-keyed maps become association lists,
the nanostores atoms become record fields of a single state record, and
the asynchronous methods become pure state transformers (an exception
raised by a method is an explicit error value).  External collaborators
that are not part of the repository (the zip library, the browser file
system handles, the persistence layer) are modelled from their documented
behaviour where the code calls into them.
-/

namespace Bolt

/-! ## Association lists: the model of plain JavaScript objects and of
nanostores map stores.  Keys are strings; assignment keeps the position
of an existing key and appends a fresh one, exactly like property
assignment on a JavaScript object. -/

def lookupStr {α : Type} : List (String × α) → String → Option α
  | [], _ => none
  | (k, v) :: t, key => if k = key then some v else lookupStr t key

def hasKey {α : Type} : List (String × α) → String → Bool
  | [], _ => false
  | (k, _) :: t, key => k = key || hasKey t key

def replaceKey {α : Type} : List (String × α) → String → α → List (String × α)
  | [], _, _ => []
  | (k, v) :: t, key, nv =>
      if k = key then (k, nv) :: replaceKey t key nv else (k, v) :: replaceKey t key nv

def setKey {α : Type} (l : List (String × α)) (key : String) (v : α) : List (String × α) :=
  if hasKey l key then replaceKey l key v else l ++ [(key, v)]

theorem hasKey_false_lookup {α : Type} (l : List (String × α)) (k : String)
    (h : hasKey l k = false) : lookupStr l k = none := by
  induction l with
  | nil => rfl
  | cons p t ih =>
      obtain ⟨k', v⟩ := p
      simp only [hasKey, Bool.or_eq_false_iff, decide_eq_false_iff_not] at h
      simp only [lookupStr, if_neg h.1]
      exact ih h.2

theorem lookup_append {α : Type} (l1 l2 : List (String × α)) (k : String) :
    lookupStr (l1 ++ l2) k =
      match lookupStr l1 k with
      | some v => some v
      | none => lookupStr l2 k := by
  induction l1 with
  | nil => rfl
  | cons p t ih =>
      obtain ⟨k', v⟩ := p
      by_cases h : k' = k
      · simp [lookupStr, h]
      · simp [lookupStr, h, ih]

theorem lookup_replaceKey_self {α : Type} (l : List (String × α)) (k : String) (v : α)
    (h : hasKey l k = true) : lookupStr (replaceKey l k v) k = some v := by
  induction l with
  | nil => simp [hasKey] at h
  | cons p t ih =>
      obtain ⟨k', w⟩ := p
      by_cases hk : k' = k
      · simp [replaceKey, hk, lookupStr]
      · simp only [hasKey, Bool.or_eq_true, decide_eq_true_eq] at h
        rcases h with h | h
        · exact absurd h hk
        · simp [replaceKey, hk, lookupStr, ih h]

theorem lookup_replaceKey_ne {α : Type} (l : List (String × α)) (k : String) (v : α)
    (k' : String) (h : k' ≠ k) : lookupStr (replaceKey l k v) k' = lookupStr l k' := by
  induction l with
  | nil => rfl
  | cons p t ih =>
      obtain ⟨k0, w⟩ := p
      simp only [replaceKey]
      by_cases hk : k0 = k
      · subst hk
        have hne : ¬ k0 = k' := fun hh => h hh.symm
        simp only [if_pos rfl, lookupStr, if_neg hne, ih]
      · by_cases hk' : k0 = k'
        · simp only [if_neg hk, lookupStr, if_pos hk']
        · simp only [if_neg hk, lookupStr, if_neg hk', ih]

theorem lookup_setKey_self {α : Type} (l : List (String × α)) (k : String) (v : α) :
    lookupStr (setKey l k v) k = some v := by
  unfold setKey
  by_cases h : hasKey l k
  · simp [h, lookup_replaceKey_self l k v h]
  · simp only [Bool.not_eq_true] at h
    simp [h, lookup_append, hasKey_false_lookup l k h, lookupStr]

theorem lookup_setKey_ne {α : Type} (l : List (String × α)) (k : String) (v : α)
    (k' : String) (h : k' ≠ k) : lookupStr (setKey l k v) k' = lookupStr l k' := by
  unfold setKey
  by_cases hk : hasKey l k
  · simp [hk, lookup_replaceKey_ne l k v k' h]
  · simp only [Bool.not_eq_true] at hk
    cases hl : lookupStr l k' with
    | some w => simp [hk, lookup_append, hl]
    | none =>
        have hne : ¬ k = k' := fun hh => h hh.symm
        simp [hk, lookup_append, hl, lookupStr, hne]

theorem map_fst_replaceKey {α : Type} (l : List (String × α)) (k : String) (v : α) :
    (replaceKey l k v).map Prod.fst = l.map Prod.fst := by
  induction l with
  | nil => rfl
  | cons p t ih =>
      obtain ⟨k0, w⟩ := p
      by_cases hk : k0 = k <;> simp [replaceKey, hk, ih]

theorem map_fst_setKey_of_hasKey {α : Type} (l : List (String × α)) (k : String) (v : α)
    (h : hasKey l k = true) : (setKey l k v).map Prod.fst = l.map Prod.fst := by
  simp [setKey, h, map_fst_replaceKey]

theorem hasKey_of_lookup_some {α : Type} (l : List (String × α)) (k : String) (v : α)
    (h : lookupStr l k = some v) : hasKey l k = true := by
  induction l with
  | nil => simp [lookupStr] at h
  | cons p t ih =>
      obtain ⟨k0, w⟩ := p
      by_cases hk : k0 = k
      · simp [hasKey, hk]
      · simp only [lookupStr, if_neg hk] at h
        simp [hasKey, hk, ih h]

/-! ## Character-level splitting: the model of the JavaScript
String.prototype.split with a single-character separator, as used by
the store on relative paths (`relativePath.split('/')`). -/

def splitCharAux (c : Char) : List Char → List (List Char)
  | [] => [[]]
  | a :: rest =>
      match splitCharAux c rest with
      | [] => [[]]
      | h :: t => if a = c then [] :: h :: t else (a :: h) :: t

def splitChar (c : Char) (s : String) : List String :=
  (splitCharAux c s.toList).map (fun l => String.mk l)

theorem splitCharAux_ne_nil (c : Char) (l : List Char) : splitCharAux c l ≠ [] := by
  cases l with
  | nil => simp [splitCharAux]
  | cons a rest =>
      simp only [splitCharAux]
      cases splitCharAux c rest with
      | nil => simp
      | cons h t =>
          by_cases hac : a = c <;> simp [hac]

theorem splitChar_ne_nil (c : Char) (s : String) : splitChar c s ≠ [] := by
  simp [splitChar, splitCharAux_ne_nil]

/-- Joining path segments with a separator character, at the character
level; the inverse of splitCharAux. -/
def joinC (c : Char) : List (List Char) → List Char
  | [] => []
  | [h] => h
  | h :: h2 :: t => h ++ c :: joinC c (h2 :: t)

theorem joinC_splitCharAux (c : Char) (l : List Char) :
    joinC c (splitCharAux c l) = l := by
  induction l with
  | nil => rfl
  | cons a rest ih =>
      simp only [splitCharAux]
      cases hr : splitCharAux c rest with
      | nil => exact absurd hr (splitCharAux_ne_nil c rest)
      | cons h t =>
          rw [hr] at ih
          by_cases hac : a = c
          · subst hac
            simp only [if_pos rfl, joinC]
            rw [ih]
            rfl
          · simp only [if_neg hac]
            cases t with
            | nil => simp only [joinC] at ih ⊢; rw [ih]
            | cons h2 t2 =>
                simp only [joinC, List.cons_append] at ih ⊢
                rw [ih]

/-- Joining a list of string path segments with slashes. -/
def joinSegs : List String → String
  | [] => ""
  | [s] => s
  | s :: s2 :: t => s ++ "/" ++ joinSegs (s2 :: t)

theorem string_append_mk (a b : List Char) :
    String.mk a ++ String.mk b = String.mk (a ++ b) := rfl

theorem slash_mk : ("/" : String) = String.mk ['/'] := rfl

theorem string_mk_toList (s : String) : String.mk s.toList = s := by
  cases s
  rfl

theorem joinSegs_map_mk (ll : List (List Char)) :
    joinSegs (ll.map (fun l => String.mk l)) = String.mk (joinC '/' ll) := by
  induction ll with
  | nil => rfl
  | cons h t ih =>
      cases t with
      | nil => rfl
      | cons h2 t2 =>
          simp only [List.map_cons, joinSegs, joinC] at ih ⊢
          rw [ih, slash_mk, string_append_mk, string_append_mk]
          simp [List.append_assoc]

theorem joinSegs_splitChar (s : String) : joinSegs (splitChar '/' s) = s := by
  unfold splitChar
  rw [joinSegs_map_mk, joinC_splitCharAux, string_mk_toList]

theorem dropLast_append_getD {α : Type} [Inhabited α] (l : List α) (h : l ≠ []) (d : α) :
    l.dropLast ++ [l.getD (l.length - 1) d] = l := by
  induction l with
  | nil => exact absurd rfl h
  | cons a t ih =>
      cases t with
      | nil => rfl
      | cons b t2 =>
          have ht : b :: t2 ≠ [] := by simp
          have h2 := ih ht
          simp only [List.length_cons, Nat.add_sub_cancel] at h2
          simp only [List.dropLast_cons_of_ne_nil ht, List.cons_append, List.length_cons,
            Nat.add_sub_cancel, List.getD_cons_succ]
          rw [h2]

theorem foldl_append_singleton {α : Type} (l : List α) (r : List α) :
    l.foldl (fun acc s => acc ++ [s]) r = r ++ l := by
  induction l generalizing r with
  | nil => simp
  | cons a t ih => simp [List.foldl_cons, ih, List.append_assoc]

/-! ## JSON values: the model of what JSON.parse returns and of the
objects handed to JSON.stringify.  Objects and arrays keep their field
and element order. -/

inductive Json where
  | jnull
  | jbool (b : Bool)
  | jnum (n : Int)
  | jstr (s : String)
  | jarr (elems : List Json)
  | jobj (fields : List (String × Json))

/-- JavaScript truthiness of a JSON value: null, false, 0 and the empty
string are falsy, everything else is truthy. -/
def Json.truthy : Json → Bool
  | jnull => false
  | jbool b => b
  | jnum n => n != 0
  | jstr s => s != ""
  | jarr _ => true
  | jobj _ => true

/-- Property access j.k on a parsed JSON value: a field of an object, or
undefined (none) otherwise. -/
def Json.getField : Json → String → Option Json
  | jobj fields, k => lookupStr fields k
  | _, _ => none

/-- Property access where a missing field reads as undefined, modelled by
null (the two are interchangeable for the uses below). -/
def Json.fieldD (j : Json) (k : String) : Json := (j.getField k).getD Json.jnull

/-- Truthiness of a property access: false when the field is absent. -/
def Json.truthyField (j : Json) (k : String) : Bool :=
  match j.getField k with
  | some v => v.truthy
  | none => false

/-- Boolean equality of JSON values, used to model the IndexedDB key
comparison when records are stored by id. -/
def beqJson : Json → Json → Bool
  | .jnull, .jnull => true
  | .jbool a, .jbool b => a == b
  | .jnum a, .jnum b => a == b
  | .jstr a, .jstr b => a == b
  | .jarr [], .jarr [] => true
  | .jarr (x :: xs), .jarr (y :: ys) => beqJson x y && beqJson (.jarr xs) (.jarr ys)
  | .jobj [], .jobj [] => true
  | .jobj ((k, x) :: xs), .jobj ((l, y) :: ys) =>
      k == l && beqJson x y && beqJson (.jobj xs) (.jobj ys)
  | _, _ => false

/-! ## The zip library model.  A JSZip instance is a shared list of
entries (full path to entry) together with a root path; folder and file
operations mirror the documented JSZip behaviour: folder(name) creates
the directory entry when it is absent and returns a new instance rooted
there (it never returns null for a plain string name), file(name) looks
an existing non-directory entry up, and file(name, data) assigns the
entry like a property assignment. -/

inductive ZContent where
  | zstr (s : String)
  | zjson (j : Json)

structure ZEntry where
  dir : Bool
  content : ZContent

structure Zip where
  entries : List (String × ZEntry)
  root : String

/-- Reading a zip entry as a string and passing it to JSON.parse: entries
written from JSON.stringify carry their JSON value and parse back to it;
a generic string entry is modelled as failing to parse.  (Plain strings
that happen to be valid JSON are not modelled; no claim depends on
them.) -/
def ZContent.parseJson : ZContent → Option Json
  | zstr _ => none
  | zjson j => some j

/-- JSZip folder(name) on the shared entry list: get or create the
directory entry root ++ name ++ "/" and move the root there. -/
def folderStep (es : List (String × ZEntry)) (root seg : String) :
    List (String × ZEntry) × String :=
  let p := root ++ seg ++ "/"
  (if hasKey es p then es else es ++ [(p, ⟨true, ZContent.zstr ""⟩)], p)

def Zip.folder (z : Zip) (name : String) : Option Zip :=
  let st := folderStep z.entries z.root name
  some ⟨st.1, st.2⟩

/-- One step of the currentFolder = currentFolder.folder(segment)
navigation of the zip loops. -/
def navStep : List (String × ZEntry) × String → String → List (String × ZEntry) × String :=
  fun p seg => folderStep p.1 p.2 seg

def Zip.fileGet (z : Zip) (name : String) : Option ZEntry :=
  match lookupStr z.entries (z.root ++ name) with
  | some e => if e.dir then none else some e
  | none => none

/-! ## The file, editor, terminal and artifact data of the workbench. -/

/-- An entry of the FilesStore file map: a file with its content and
binary flag, or a folder. -/
inductive Dirent where
  | file (content : String) (isBin : Bool)
  | folder
deriving DecidableEq

structure BoltActionData where
  type : String
  filePath : String
  content : String
deriving DecidableEq

structure ActionCallbackData where
  artifactId : String
  messageId : String
  actionId : String
  action : BoltActionData
deriving DecidableEq

/-- The observable history of an ActionRunner: the actions handed to
addAction and the actions handed to runAction together with the
isStreaming flag of the call. -/
structure RunnerLog where
  added : List ActionCallbackData
  runs : List (ActionCallbackData × Bool)
deriving DecidableEq

structure ArtifactState where
  id : String
  title : String
  closed : Bool
  runner : RunnerLog
deriving DecidableEq

structure ArtifactCallbackData where
  messageId : String
  title : String
  id : String
deriving DecidableEq

/-- Partial ArtifactUpdateState: an absent field leaves the artifact
field unchanged, exactly like the object spread in updateArtifact. -/
structure ArtifactUpdate where
  title : Option String
  closed : Option Bool
deriving DecidableEq

/-- Modelled from the spec: a record of the chat-history database (the
persistence module is not part of the sources; the spec describes it as
IndexedDB CRUD storing chats with messages, urlId and description under
an id). -/
structure ChatRec where
  id : Json
  messages : Json
  urlId : Json
  description : Json

/-- Modelled from the spec: IndexedDB put semantics for setMessages, the
record replaces an existing record with the same id and is appended
otherwise. -/
def putChat (l : List ChatRec) (r : ChatRec) : List ChatRec :=
  if (l.filter (fun x => beqJson x.id r.id)).isEmpty then l ++ [r]
  else l.map (fun x => if beqJson x.id r.id then r else x)

/-- The whole observable state of the WorkbenchStore and its
collaborating stores: the FilesStore map, the EditorStore documents and
selection, the current view, the unsaved-files set (a JavaScript Set,
kept as its insertion-ordered element list), the artifacts map with the
artifactIdList, the chat-history database (none when unavailable) and
the webcontainer project file system. -/
structure WB where
  files : List (String × Option Dirent)
  documents : List (String × String)
  selectedFile : Option String
  currentView : String
  unsavedFiles : List String
  artifacts : List (String × ArtifactState)
  artifactIdList : List String
  db : Option (List ChatRec)
  wcFs : List (String × ZContent)

/-! ## Elementary store operations used by the WorkbenchStore. -/

def setAdd (l : List String) (p : String) : List String :=
  if l.contains p then l else l ++ [p]

def setDel (l : List String) (p : String) : List String :=
  l.filter (fun q => q != p)

/-- Modelled from the spec: EditorStore.updateFile sets the stored
document content for the path (the spec describes the file branch as
updating the editor document with the content of the action). -/
def updateFileDoc (st : WB) (p c : String) : WB :=
  { st with documents := setKey st.documents p c }

def setSelectedFile (st : WB) (p : Option String) : WB :=
  { st with selectedFile := p }

/-- EditorStore.currentDocument: the document selected by selectedFile,
with its path. -/
def currentDocument (st : WB) : Option (String × String) :=
  match st.selectedFile with
  | some p => (lookupStr st.documents p).map (fun v => (p, v))
  | none => none

/-- Modelled from the spec: FilesStore.getFile returns the dirent only
when the entry at the path is a file; the pair is its content and binary
flag. -/
def getFile (st : WB) (p : String) : Option (String × Bool) :=
  match lookupStr st.files p with
  | some (some (Dirent.file c b)) => some (c, b)
  | _ => none

/-- Modelled from the spec: FilesStore.saveFile stores the given content
for the path in the files store (the spec sentence: saves the document
value to the files store). -/
def filesSave (st : WB) (p v : String) : WB :=
  { st with files := setKey st.files p (some (Dirent.file v false)) }

def getArtifact (st : WB) (id : String) : Option ArtifactState :=
  lookupStr st.artifacts id

def emptyRunner : RunnerLog := ⟨[], []⟩

/-- The runs log of the runner of the artifact registered under the
message id (empty when there is none); used to state what was forwarded
to the ActionRunner. -/
def runnerRuns (st : WB) (mid : String) : List (ActionCallbackData × Bool) :=
  match getArtifact st mid with
  | some a => a.runner.runs
  | none => []

/-- Forwarding an action to the runner of the artifact registered under
the message id: runner.runAction(data, isStreaming) appends to the runs
log of that artifact. -/
def forwardRun (st : WB) (mid : String) (d : ActionCallbackData) (streaming : Bool) : WB :=
  match getArtifact st mid with
  | none => st
  | some a =>
      let a2 := { a with runner := { a.runner with runs := a.runner.runs ++ [(d, streaming)] } }
      { st with artifacts := setKey st.artifacts mid a2 }

/-- Model of nodePath.join for the join of the webcontainer workdir and
an action file path: a single separator is placed between the two
parts. -/
def nodeJoin (a b : String) : String :=
  (if a.toList.getLast? = some '/' then String.mk a.toList.dropLast else a) ++ "/" ++
    (if b.toList.head? = some '/' then String.mk b.toList.tail else b)

theorem string_data_append (s t : String) : (s ++ t).data = s.data ++ t.data := by
  cases s
  cases t
  rfl

theorem nodeJoin_ne_empty (a b : String) : nodeJoin a b ≠ "" := by
  intro h
  have hd := congrArg String.data h
  unfold nodeJoin at hd
  rw [string_data_append, string_data_append] at hd
  rw [show ("/" : String).data = ['/'] from rfl, show ("" : String).data = [] from rfl] at hd
  simp at hd

/-- The JavaScript replace of the leading "/home/project/" by the empty
string, used to turn an absolute sandbox path into a relative one. -/
def stripProjectRoot (p : String) : String :=
  if p.toList.take 14 = "/home/project/".toList then String.mk (p.toList.drop 14) else p

/-- JavaScript s.startsWith(t). -/
def strStarts (s t : String) : Bool := s.toList.take t.toList.length = t.toList

/-- The JavaScript replace of leading slashes by the empty string used on
restored zip entry paths. -/
def dropLeadingSlashes (p : String) : String :=
  String.mk (p.toList.dropWhile (fun c => c = '/'))

/-- The whitespace class of the JavaScript regular expression as far as
ASCII goes (unicode space characters are not modelled). -/
def jsIsSpace (c : Char) : Bool :=
  c = ' ' || c = '\t' || c = '\n' || c = '\r' || c = '\x0b' || c = '\x0c'

def collapseWsAux (inRun : Bool) : List Char → List Char
  | [] => []
  | a :: t =>
      if jsIsSpace a then
        if inRun then collapseWsAux true t else '-' :: collapseWsAux true t
      else a :: collapseWsAux false t

/-- The JavaScript replace(whitespace-run, "-") applied globally. -/
def collapseWs (s : String) : String := String.mk (collapseWsAux false s.toList)

/-- JavaScript toLowerCase (character by character). -/
def jsToLower (s : String) : String := String.mk (s.toList.map Char.toLower)

/-- The datetime part of the export file name: the ISO instant with
colons, dashes and the letter T removed, cut at the first dot. -/
def exportDatetime (nowIso : String) : String :=
  String.mk ((nowIso.toList.filter
    (fun c => !(c == ':' || c == '-' || c == 'T'))).takeWhile (fun c => c != '.'))

/-! ## The WorkbenchStore methods (source: the workbench store module of
the repository), translated statement by statement. -/

/-- WorkbenchStore.setCurrentDocumentContent. -/
def setCurrentDocumentContent (st : WB) (newContent : String) : WB :=
  match currentDocument st with
  | none => st
  | some fp =>
      if fp.1 = "" then st
      else
        let originalContent := (getFile st fp.1).map (fun q => q.1)
        let unsavedChanges := originalContent.isSome && originalContent != some newContent
        let st1 := updateFileDoc st fp.1 newContent
        match currentDocument st1 with
        | none => st1
        | some cd =>
            if unsavedChanges && st1.unsavedFiles.contains cd.1 then st1
            else if unsavedChanges then { st1 with unsavedFiles := setAdd st1.unsavedFiles cd.1 }
            else { st1 with unsavedFiles := setDel st1.unsavedFiles cd.1 }

/-- WorkbenchStore.saveFile. -/
def saveFile (st : WB) (filePath : String) : WB :=
  match lookupStr st.documents filePath with
  | none => st
  | some v =>
      let st1 := filesSave st filePath v
      { st1 with unsavedFiles := setDel st1.unsavedFiles filePath }

/-- WorkbenchStore.resetCurrentDocument. -/
def resetCurrentDocument (st : WB) : WB :=
  match currentDocument st with
  | none => st
  | some fp =>
      match getFile st fp.1 with
      | none => st
      | some q => setCurrentDocumentContent st q.1

/-- WorkbenchStore.firstArtifact. -/
def firstArtifact (st : WB) : Option ArtifactState :=
  match st.artifactIdList with
  | [] => none
  | id :: _ => getArtifact st id

/-- WorkbenchStore.addArtifact. -/
def addArtifact (st : WB) (d : ArtifactCallbackData) : WB :=
  match getArtifact st d.messageId with
  | some _ => st
  | none =>
      let st1 :=
        if st.artifactIdList.contains d.messageId then st
        else { st with artifactIdList := st.artifactIdList ++ [d.messageId] }
      { st1 with artifacts := setKey st1.artifacts d.messageId ⟨d.id, d.title, false, emptyRunner⟩ }

/-- WorkbenchStore.updateArtifact. -/
def updateArtifact (st : WB) (d : ArtifactCallbackData) (u : ArtifactUpdate) : WB :=
  match getArtifact st d.messageId with
  | none => st
  | some a =>
      let a2 : ArtifactState := ⟨a.id, u.title.getD a.title, u.closed.getD a.closed, a.runner⟩
      { st with artifacts := setKey st.artifacts d.messageId a2 }

/-- WorkbenchStore.addAction; unreachable("Artifact not found") becomes
the error component of the result. -/
def addAction (st : WB) (d : ActionCallbackData) : WB × Option String :=
  match getArtifact st d.messageId with
  | none => (st, some "Artifact not found")
  | some a =>
      let a2 := { a with runner := { a.runner with added := a.runner.added ++ [d] } }
      ({ st with artifacts := setKey st.artifacts d.messageId a2 }, none)

/-- The body of the file branch of WorkbenchStore.runAction: select the
file at the joined path, switch the view to code, run the action through
the runner when the editor has no document yet, update the editor
document with the action content, and when not streaming reset the
current document and run the action through the runner. -/
def runActionFile (workdir : String) (st : WB) (d : ActionCallbackData) (isStreaming : Bool) :
    WB :=
  let fullPath := nodeJoin workdir d.action.filePath
  let st1 := if st.selectedFile ≠ some fullPath then setSelectedFile st (some fullPath) else st
  let st2 := if st1.currentView ≠ "code" then { st1 with currentView := "code" } else st1
  let st3 :=
    if (lookupStr st2.documents fullPath).isNone then forwardRun st2 d.messageId d isStreaming
    else st2
  let st4 := updateFileDoc st3 fullPath d.action.content
  if isStreaming then st4
  else forwardRun (resetCurrentDocument st4) d.messageId d false

/-- WorkbenchStore.runAction; the workdir of the awaited webcontainer is
passed as an argument. -/
def runAction (workdir : String) (st : WB) (d : ActionCallbackData) (isStreaming : Bool) :
    WB × Option String :=
  match getArtifact st d.messageId with
  | none => (st, some "Artifact not found")
  | some _ =>
      if d.action.type = "file" then (runActionFile workdir st d isStreaming, none)
      else (forwardRun st d.messageId d false, none)

/-! ## Zip packaging: downloadZip, syncFiles and exportProject. -/

/-- The body of the per-file work of the zip loops: strip the project
root, split the relative path, create the nested folders when there is
more than one segment, then add the file entry. -/
def addFileAt (es : List (String × ZEntry)) (root relPath content : String) :
    List (String × ZEntry) :=
  let pathSegments := splitChar '/' relPath
  if pathSegments.length > 1 then
    let nav := pathSegments.dropLast.foldl navStep (es, root)
    setKey nav.1 (nav.2 ++ pathSegments.getD (pathSegments.length - 1) "")
      ⟨false, ZContent.zstr content⟩
  else
    setKey es (root ++ relPath) ⟨false, ZContent.zstr content⟩

/-- The shared loop over the files store of downloadZip and
exportProject: every non-binary file dirent is added under its stripped
relative path, everything else is skipped. -/
def addProjectFiles (es : List (String × ZEntry)) (root : String)
    (files : List (String × Option Dirent)) : List (String × ZEntry) :=
  files.foldl (fun acc pr =>
    match pr.2 with
    | some (Dirent.file c isBin) =>
        if isBin then acc else addFileAt acc root (stripProjectRoot pr.1) c
    | _ => acc) es

/-- WorkbenchStore.downloadZip: the produced archive (the blob
generation and the save dialog are outside the model). -/
def downloadZip (st : WB) : Zip :=
  ⟨addProjectFiles [] "" st.files, ""⟩

/-- WorkbenchStore.syncFiles: the returned list of synced relative paths
together with the log of writes through the directory handle, each write
the navigated segment path with the written content. -/
def syncFiles (st : WB) : List String × List (List String × String) :=
  st.files.foldl (fun acc pr =>
    match pr.2 with
    | some (Dirent.file c isBin) =>
        if isBin then acc
        else
          let relativePath := stripProjectRoot pr.1
          let pathSegments := splitChar '/' relativePath
          let currentHandle := pathSegments.dropLast.foldl
            (fun (h : List String) seg => h ++ [seg]) []
          (acc.1 ++ [relativePath],
            acc.2 ++ [(currentHandle ++ [pathSegments.getD (pathSegments.length - 1) ""], c)])
    | _ => acc) ([], [])

/-- Modelled from the spec: the JSON value that getAll followed by
JSON.stringify produces for one stored chat record. -/
def chatRecJson (r : ChatRec) : Json :=
  Json.jobj [("id", r.id), ("messages", r.messages), ("urlId", r.urlId),
    ("description", r.description)]

/-- The project name of the export file: the title of the first
artifact, lowercased with whitespace runs replaced by "-", with the
JavaScript fallback of the || operator to "project" when there is no
artifact or when the transformed title is the empty string. -/
def exportName (st : WB) : String :=
  match firstArtifact st with
  | some a =>
      let t := collapseWs (jsToLower a.title)
      if t = "" then "project" else t
  | none => "project"

/-- WorkbenchStore.exportProject: the produced archive and the file name
it is saved under; none models the catch branch of a thrown error.  The
ISO instant of the export is passed as an argument. -/
def exportProject (st : WB) (nowIso : String) : Option (Zip × String) :=
  let projectName := exportName st
  let datetime := exportDatetime nowIso
  let filename := "backup-" ++ projectName ++ "-" ++ datetime ++ ".zip"
  match Zip.folder ⟨[], ""⟩ "code" with
  | none => none
  | some codeFolder =>
      let entries := addProjectFiles codeFolder.entries codeFolder.root st.files
      let entries2 :=
        match st.db with
        | some chats =>
            setKey entries "chat_history.json"
              ⟨false, ZContent.zjson (Json.jarr (chats.map chatRecJson))⟩
        | none => entries
      let meta := Json.jobj [("exportDate", Json.jstr nowIso), ("version", Json.jstr "1.0"),
        ("projectName", Json.jstr projectName)]
      let entries3 := setKey entries2 "metadata.json" ⟨false, ZContent.zjson meta⟩
      some (⟨entries3, ""⟩, filename)

/-! ## Backup import. -/

inductive ImportOutcome where
  | invalidFormat
  | invalidMetadata
  | metadataParseError
  | chatRestoreFailed
  | success
deriving DecidableEq

/-- WorkbenchStore.importProjectBackup on an already loaded archive: the
resulting state together with the toast outcome. -/
def importProjectBackup (st : WB) (zentries : List (String × ZEntry)) : WB × ImportOutcome :=
  let zip : Zip := ⟨zentries, ""⟩
  let metadata := zip.fileGet "metadata.json"
  let chatHistory := zip.fileGet "chat_history.json"
  match metadata, chatHistory, zip.folder "code" with
  | some me, some ch, some codeFolder =>
      (match me.content.parseJson with
       | none => (st, ImportOutcome.metadataParseError)
       | some mj =>
          if !(mj.truthyField "version") || !(mj.truthyField "exportDate") then
            (st, ImportOutcome.invalidMetadata)
          else
            match ch.content.parseJson with
            | none => (st, ImportOutcome.chatRestoreFailed)
            | some cj =>
                let st1 :=
                  match cj, st.db with
                  | Json.jarr items, some _ =>
                      let restored := items.foldl (fun acc (it : Json) =>
                        putChat acc ⟨it.fieldD "id", it.fieldD "messages", it.fieldD "urlId",
                          it.fieldD "description"⟩) []
                      { st with db := some restored }
                  | _, _ => st
                let fsCleared := st1.wcFs.filter (fun pr =>
                  !(strStarts pr.1 "/home/project/") && pr.1 != "/home/project")
                let fsNew := codeFolder.entries.foldl (fun fs pr =>
                  if pr.2.dir then fs
                  else
                    let cleanPath := dropLeadingSlashes pr.1
                    let fullPath := "/home/project/" ++ cleanPath
                    setKey fs fullPath pr.2.content) fsCleared
                ({ st1 with wcFs := fsNew }, ImportOutcome.success))
  | _, _, _ => (st, ImportOutcome.invalidFormat)

/-! ## Concrete states used by the witnesses. -/

def wbEmpty : WB := ⟨[], [], none, "code", [], [], [], none, []⟩

def artW : ArtifactState := ⟨"a1", "T", false, emptyRunner⟩

def wbArt : WB := ⟨[], [], none, "code", [], [("m1", artW)], ["m1"], none, []⟩

def actShellW : ActionCallbackData := ⟨"a1", "m1", "0", ⟨"shell", "", "ls"⟩⟩

def artCbW : ArtifactCallbackData := ⟨"m1", "T", "a1"⟩

def wbDoc : WB :=
  ⟨[("/home/project/f.ts", some (Dirent.file "old" false))],
    [("/home/project/f.ts", "cur")], some "/home/project/f.ts", "code",
    [], [], [], none, []⟩

/-! ## Claims about the artifact map and the action entry points. -/

/-- C2: for an ActionCallbackData whose messageId has no registered
artifact, addAction and runAction both signal the "Artifact not found"
error raised through unreachable, forward nothing to any runner, and
leave the whole state (in particular the artifacts map and the
artifactIdList) unchanged. -/
theorem runAction_missing_artifact (workdir : String) (st : WB) (d : ActionCallbackData)
    (b : Bool) (h : getArtifact st d.messageId = none) :
    addAction st d = (st, some "Artifact not found") ∧
    runAction workdir st d b = (st, some "Artifact not found") := by
  unfold addAction runAction
  rw [h]
  exact ⟨rfl, rfl⟩

theorem runAction_missing_artifact_witness :
    addAction wbEmpty actShellW = (wbEmpty, some "Artifact not found") ∧
    runAction "/home/project" wbEmpty actShellW true = (wbEmpty, some "Artifact not found") :=
  runAction_missing_artifact "/home/project" wbEmpty actShellW true rfl

/-- C3: addArtifact is idempotent per messageId: a call for an already
registered messageId changes nothing (hence a repeated call is
absorbed), and a call for a fresh messageId registers the artifact with
the given id and title, closed = false and a fresh runner, appending the
messageId to artifactIdList only when it is not already there, so that
the list stays duplicate free. -/
theorem addArtifact_spec (st : WB) (d : ArtifactCallbackData) :
    ((getArtifact st d.messageId).isSome → addArtifact st d = st) ∧
    addArtifact (addArtifact st d) d = addArtifact st d ∧
    (getArtifact st d.messageId = none →
      getArtifact (addArtifact st d) d.messageId =
        some ⟨d.id, d.title, false, emptyRunner⟩ ∧
      (addArtifact st d).artifactIdList =
        (if d.messageId ∈ st.artifactIdList then st.artifactIdList
         else st.artifactIdList ++ [d.messageId]) ∧
      (st.artifactIdList.Nodup → (addArtifact st d).artifactIdList.Nodup)) := by
  cases h : getArtifact st d.messageId with
  | some a =>
      have h1 : addArtifact st d = st := by
        unfold addArtifact
        rw [h]
      have hiter : addArtifact (addArtifact st d) d = addArtifact st d := by
        rw [h1]
        exact h1
      exact ⟨fun _ => h1, hiter, fun hnone => Option.noConfusion hnone⟩
  | none =>
      have hlook : getArtifact (addArtifact st d) d.messageId =
          some ⟨d.id, d.title, false, emptyRunner⟩ := by
        unfold addArtifact
        rw [h]
        exact lookup_setKey_self _ _ _
      have hlist : (addArtifact st d).artifactIdList =
          (if d.messageId ∈ st.artifactIdList then st.artifactIdList
           else st.artifactIdList ++ [d.messageId]) := by
        unfold addArtifact
        rw [h]
        by_cases hm : d.messageId ∈ st.artifactIdList <;> simp [hm]
      have hiter : addArtifact (addArtifact st d) d = addArtifact st d := by
        conv_lhs => rw [addArtifact]
        rw [hlook]
      have hsome : (none : Option ArtifactState).isSome → addArtifact st d = st := by
        intro hs
        simp at hs
      have hnd2 : st.artifactIdList.Nodup → (addArtifact st d).artifactIdList.Nodup := by
        intro hnd
        rw [hlist]
        by_cases hm : d.messageId ∈ st.artifactIdList
        · simpa [hm] using hnd
        · simp [hm, List.nodup_append, hnd]
      exact ⟨hsome, hiter, fun _ => ⟨hlook, hlist, hnd2⟩⟩

theorem addArtifact_spec_witness :
    getArtifact (addArtifact wbEmpty artCbW) "m1" = some ⟨"a1", "T", false, emptyRunner⟩ ∧
    (addArtifact wbEmpty artCbW).artifactIdList.Nodup ∧
    addArtifact (addArtifact wbEmpty artCbW) artCbW = addArtifact wbEmpty artCbW ∧
    addArtifact wbArt artCbW = wbArt := by
  refine ⟨((addArtifact_spec wbEmpty artCbW).2.2 rfl).1,
    ((addArtifact_spec wbEmpty artCbW).2.2 rfl).2.2 (by decide),
    (addArtifact_spec wbEmpty artCbW).2.1,
    (addArtifact_spec wbArt artCbW).1 (by decide)⟩

/-- C10: updateArtifact with a partial update changes at most the title
and closed fields of the artifact registered under the messageId,
keeping its id and runner; all other artifacts, the key set of the
artifacts map and the artifactIdList are untouched, and a messageId
without an artifact makes the call a no-op. -/
theorem updateArtifact_frame (st : WB) (d : ArtifactCallbackData) (u : ArtifactUpdate) :
    (getArtifact st d.messageId = none → updateArtifact st d u = st) ∧
    (∀ a, getArtifact st d.messageId = some a →
      getArtifact (updateArtifact st d u) d.messageId =
        some ⟨a.id, u.title.getD a.title, u.closed.getD a.closed, a.runner⟩ ∧
      (∀ k, k ≠ d.messageId → getArtifact (updateArtifact st d u) k = getArtifact st k) ∧
      (updateArtifact st d u).artifacts.map Prod.fst = st.artifacts.map Prod.fst ∧
      (updateArtifact st d u).artifactIdList = st.artifactIdList) := by
  constructor
  · intro h
    unfold updateArtifact
    rw [h]
  · intro a h
    have hb : updateArtifact st d u = { st with artifacts := setKey st.artifacts d.messageId ⟨a.id, u.title.getD a.title, u.closed.getD a.closed, a.runner⟩ } := by
      unfold updateArtifact
      rw [h]
    refine ⟨?_, ?_, ?_, by rw [hb]⟩
    · rw [hb]
      exact lookup_setKey_self _ _ _
    · intro k hk
      rw [hb]
      exact lookup_setKey_ne _ _ _ _ hk
    · rw [hb]
      exact map_fst_setKey_of_hasKey _ _ _ (hasKey_of_lookup_some _ _ _ h)

theorem updateArtifact_frame_witness :
    getArtifact (updateArtifact wbArt artCbW ⟨some "T2", none⟩) "m1" =
      some ⟨"a1", "T2", false, emptyRunner⟩ ∧
    (updateArtifact wbArt artCbW ⟨some "T2", none⟩).artifactIdList = ["m1"] := by
  refine ⟨?_, ?_⟩
  · exact ((updateArtifact_frame wbArt artCbW ⟨some "T2", none⟩).2 artW rfl).1
  · exact ((updateArtifact_frame wbArt artCbW ⟨some "T2", none⟩).2 artW rfl).2.2.2

/-- C9: saveFile is a no-op when the editor has no document for the
path; otherwise it saves the document value to the files store and
removes the path from the unsaved set; the unsaved membership of every
other path is unchanged either way. -/
theorem saveFile_spec (st : WB) (p : String) :
    (lookupStr st.documents p = none → saveFile st p = st) ∧
    (∀ v, lookupStr st.documents p = some v →
      getFile (saveFile st p) p = some (v, false) ∧ p ∉ (saveFile st p).unsavedFiles) ∧
    (∀ q, q ≠ p → (q ∈ (saveFile st p).unsavedFiles ↔ q ∈ st.unsavedFiles)) := by
  refine ⟨?_, ?_, ?_⟩
  · intro h
    unfold saveFile
    rw [h]
  · intro v h
    have hb : saveFile st p =
        { st with files := setKey st.files p (some (Dirent.file v false)),
                  unsavedFiles := setDel st.unsavedFiles p } := by
      unfold saveFile
      rw [h]
      rfl
    constructor
    · rw [hb]
      unfold getFile
      dsimp only
      rw [lookup_setKey_self]
    · rw [hb]
      simp [setDel, List.mem_filter]
  · intro q hq
    cases h : lookupStr st.documents p with
    | none =>
        have hb : saveFile st p = st := by
          unfold saveFile
          rw [h]
        rw [hb]
    | some v =>
        have hb : saveFile st p =
            { st with files := setKey st.files p (some (Dirent.file v false)),
                      unsavedFiles := setDel st.unsavedFiles p } := by
          unfold saveFile
          rw [h]
          rfl
        rw [hb]
        simp [setDel, List.mem_filter, hq]

theorem mem_setAdd_self (l : List String) (p : String) : p ∈ setAdd l p := by
  unfold setAdd
  by_cases hm : p ∈ l <;> simp [hm]

theorem mem_setAdd_ne (l : List String) (p r : String) (h : r ≠ p) :
    r ∈ setAdd l p ↔ r ∈ l := by
  unfold setAdd
  by_cases hm : p ∈ l <;> simp [hm, h]

theorem not_mem_setDel_self (l : List String) (p : String) : p ∉ setDel l p := by
  simp [setDel, List.mem_filter]

theorem mem_setDel_ne (l : List String) (p r : String) (h : r ≠ p) :
    r ∈ setDel l p ↔ r ∈ l := by
  simp [setDel, List.mem_filter, h]

theorem currentDocument_eq (st : WB) (p v : String) (hd : currentDocument st = some (p, v)) :
    st.selectedFile = some p ∧ lookupStr st.documents p = some v := by
  unfold currentDocument at hd
  cases hsel : st.selectedFile with
  | none => rw [hsel] at hd; cases hd
  | some p0 =>
      rw [hsel] at hd
      dsimp only at hd
      cases hl : lookupStr st.documents p0 with
      | none => rw [hl] at hd; cases hd
      | some v0 =>
          rw [hl] at hd
          simp only [Option.map_some', Option.some.injEq, Prod.mk.injEq] at hd
          obtain ⟨hp1, hv1⟩ := hd
          subst hp1
          subst hv1
          exact ⟨rfl, hl⟩

theorem currentDocument_updateFileDoc (st : WB) (p c : String)
    (hsel : st.selectedFile = some p) :
    currentDocument (updateFileDoc st p c) = some (p, c) := by
  unfold currentDocument updateFileDoc
  dsimp only
  rw [hsel]
  dsimp only
  rw [lookup_setKey_self]
  rfl

theorem setCDC_reduce (st : WB) (p v newContent : String)
    (hd : currentDocument st = some (p, v)) (hp : p ≠ "") :
    setCurrentDocumentContent st newContent =
      (if (((getFile st p).map (fun q => q.1)).isSome &&
             ((getFile st p).map (fun q => q.1)) != some newContent) &&
           st.unsavedFiles.contains p then updateFileDoc st p newContent
       else if ((getFile st p).map (fun q => q.1)).isSome &&
             ((getFile st p).map (fun q => q.1)) != some newContent then
         { updateFileDoc st p newContent with unsavedFiles := setAdd st.unsavedFiles p }
       else
         { updateFileDoc st p newContent with unsavedFiles := setDel st.unsavedFiles p }) := by
  obtain ⟨hsel, hdoc⟩ := currentDocument_eq st p v hd
  unfold setCurrentDocumentContent
  rw [hd]
  dsimp only
  rw [if_neg hp]
  rw [currentDocument_updateFileDoc st p newContent hsel]
  dsimp only [updateFileDoc]

/-- C8: after setCurrentDocumentContent with a current document at path
p, p is in the unsaved set exactly when the files store holds a saved
content for p that differs from the new content, and the membership of
every other path is unchanged. -/
theorem setCurrentDocumentContent_unsaved (st : WB) (p v newContent : String)
    (hd : currentDocument st = some (p, v)) (hp : p ≠ "") :
    (p ∈ (setCurrentDocumentContent st newContent).unsavedFiles ↔
      ∃ q, getFile st p = some q ∧ q.1 ≠ newContent) ∧
    (∀ r, r ≠ p →
      (r ∈ (setCurrentDocumentContent st newContent).unsavedFiles ↔ r ∈ st.unsavedFiles)) := by
  cases hg : getFile st p with
  | none =>
      have hres : setCurrentDocumentContent st newContent =
          { updateFileDoc st p newContent with unsavedFiles := setDel st.unsavedFiles p } := by
        rw [setCDC_reduce st p v newContent hd hp, hg]
        rfl
      rw [hres]
      constructor
      · exact iff_of_false (not_mem_setDel_self _ _) (by simp)
      · intro r hr
        exact mem_setDel_ne _ _ _ hr
  | some q =>
      obtain ⟨c, bb⟩ := q
      by_cases hc : c = newContent
      · have hres : setCurrentDocumentContent st newContent =
            { updateFileDoc st p newContent with unsavedFiles := setDel st.unsavedFiles p } := by
          rw [setCDC_reduce st p v newContent hd hp, hg]
          simp [hc]
        rw [hres]
        constructor
        · refine iff_of_false (not_mem_setDel_self _ _) ?_
          intro hex
          obtain ⟨q2, hq2, hne⟩ := hex
          cases hq2
          exact hne hc
        · intro r hr
          exact mem_setDel_ne _ _ _ hr
      · cases hcon : st.unsavedFiles.contains p with
        | true =>
            have hres : setCurrentDocumentContent st newContent =
                updateFileDoc st p newContent := by
              rw [setCDC_reduce st p v newContent hd hp, hg, hcon]
              simp [hc]
            rw [hres]
            constructor
            · exact iff_of_true (by simpa using hcon) ⟨(c, bb), rfl, hc⟩
            · intro r hr
              exact Iff.rfl
        | false =>
            have hres : setCurrentDocumentContent st newContent =
                { updateFileDoc st p newContent with unsavedFiles := setAdd st.unsavedFiles p } := by
              rw [setCDC_reduce st p v newContent hd hp, hg, hcon]
              simp [hc]
            rw [hres]
            constructor
            · exact iff_of_true (mem_setAdd_self _ _) ⟨(c, bb), rfl, hc⟩
            · intro r hr
              exact mem_setAdd_ne _ _ _ hr

theorem setCurrentDocumentContent_unsaved_witness :
    ("/home/project/f.ts" ∈ (setCurrentDocumentContent wbDoc "new").unsavedFiles ↔
      ∃ q, getFile wbDoc "/home/project/f.ts" = some q ∧ q.1 ≠ "new") ∧
    (∀ r, r ≠ "/home/project/f.ts" →
      (r ∈ (setCurrentDocumentContent wbDoc "new").unsavedFiles ↔ r ∈ wbDoc.unsavedFiles)) :=
  setCurrentDocumentContent_unsaved wbDoc "/home/project/f.ts" "cur" "new" rfl (by decide)

theorem saveFile_spec_witness :
    getFile (saveFile wbDoc "/home/project/f.ts") "/home/project/f.ts" = some ("cur", false) ∧
    "/home/project/f.ts" ∉ (saveFile wbDoc "/home/project/f.ts").unsavedFiles :=
  (saveFile_spec wbDoc "/home/project/f.ts").2.1 "cur" rfl

/-! ## Field preservation lemmas for the runAction proof. -/

@[simp] theorem forwardRun_files (st : WB) (mid : String) (d : ActionCallbackData) (b : Bool) :
    (forwardRun st mid d b).files = st.files := by
  unfold forwardRun
  cases getArtifact st mid <;> rfl

@[simp] theorem forwardRun_documents (st : WB) (mid : String) (d : ActionCallbackData)
    (b : Bool) : (forwardRun st mid d b).documents = st.documents := by
  unfold forwardRun
  cases getArtifact st mid <;> rfl

@[simp] theorem forwardRun_selectedFile (st : WB) (mid : String) (d : ActionCallbackData)
    (b : Bool) : (forwardRun st mid d b).selectedFile = st.selectedFile := by
  unfold forwardRun
  cases getArtifact st mid <;> rfl

@[simp] theorem forwardRun_currentView (st : WB) (mid : String) (d : ActionCallbackData)
    (b : Bool) : (forwardRun st mid d b).currentView = st.currentView := by
  unfold forwardRun
  cases getArtifact st mid <;> rfl

@[simp] theorem updateFileDoc_files (st : WB) (p c : String) :
    (updateFileDoc st p c).files = st.files := rfl

@[simp] theorem updateFileDoc_documents (st : WB) (p c : String) :
    (updateFileDoc st p c).documents = setKey st.documents p c := rfl

@[simp] theorem updateFileDoc_selectedFile (st : WB) (p c : String) :
    (updateFileDoc st p c).selectedFile = st.selectedFile := rfl

@[simp] theorem updateFileDoc_currentView (st : WB) (p c : String) :
    (updateFileDoc st p c).currentView = st.currentView := rfl

@[simp] theorem updateFileDoc_artifacts (st : WB) (p c : String) :
    (updateFileDoc st p c).artifacts = st.artifacts := rfl

@[simp] theorem setSelectedFile_fields (st : WB) (p : Option String) :
    (setSelectedFile st p).selectedFile = p ∧
    (setSelectedFile st p).documents = st.documents ∧
    (setSelectedFile st p).files = st.files ∧
    (setSelectedFile st p).currentView = st.currentView ∧
    (setSelectedFile st p).artifacts = st.artifacts :=
  ⟨rfl, rfl, rfl, rfl, rfl⟩

theorem setCDC_other_fields (st : WB) (c : String) :
    (setCurrentDocumentContent st c).files = st.files ∧
    (setCurrentDocumentContent st c).selectedFile = st.selectedFile ∧
    (setCurrentDocumentContent st c).currentView = st.currentView ∧
    (setCurrentDocumentContent st c).artifacts = st.artifacts := by
  unfold setCurrentDocumentContent
  dsimp only
  repeat' split
  all_goals exact ⟨rfl, rfl, rfl, rfl⟩

theorem resetCD_other_fields (st : WB) :
    (resetCurrentDocument st).files = st.files ∧
    (resetCurrentDocument st).selectedFile = st.selectedFile ∧
    (resetCurrentDocument st).currentView = st.currentView ∧
    (resetCurrentDocument st).artifacts = st.artifacts := by
  unfold resetCurrentDocument
  split
  · exact ⟨rfl, rfl, rfl, rfl⟩
  · split
    · exact ⟨rfl, rfl, rfl, rfl⟩
    · exact setCDC_other_fields st _

theorem forwardRun_artifacts_of_none (st : WB) (mid : String) (d : ActionCallbackData)
    (b : Bool) (h : getArtifact st mid = none) : forwardRun st mid d b = st := by
  unfold forwardRun
  rw [h]

theorem runnerRuns_forwardRun (st : WB) (mid : String) (d : ActionCallbackData) (b : Bool)
    (hs : (getArtifact st mid).isSome) :
    runnerRuns (forwardRun st mid d b) mid = runnerRuns st mid ++ [(d, b)] := by
  unfold forwardRun runnerRuns
  cases h : getArtifact st mid with
  | none => rw [h] at hs; cases hs
  | some a =>
      dsimp only
      unfold getArtifact
      rw [lookup_setKey_self]

theorem getArtifact_forwardRun_isSome (st : WB) (mid : String) (d : ActionCallbackData)
    (b : Bool) (hs : (getArtifact st mid).isSome) :
    (getArtifact (forwardRun st mid d b) mid).isSome := by
  unfold forwardRun
  cases h : getArtifact st mid with
  | none => rw [h] at hs; cases hs
  | some a =>
      dsimp only
      unfold getArtifact
      rw [lookup_setKey_self]
      rfl

theorem runnerRuns_eq_of_artifacts_eq (st st2 : WB) (mid : String)
    (h : st2.artifacts = st.artifacts) : runnerRuns st2 mid = runnerRuns st mid := by
  unfold runnerRuns getArtifact
  rw [h]

theorem getArtifact_isSome_of_artifacts_eq (st st2 : WB) (mid : String)
    (h : st2.artifacts = st.artifacts) (hs : (getArtifact st mid).isSome) :
    (getArtifact st2 mid).isSome := by
  unfold getArtifact
  rw [h]
  exact hs

theorem setCDC_documents (st : WB) (p v c : String)
    (hd2 : currentDocument st = some (p, v)) (hp : p ≠ "") :
    (setCurrentDocumentContent st c).documents = setKey st.documents p c := by
  rw [setCDC_reduce st p v c hd2 hp]
  split
  · rfl
  · split <;> rfl

theorem resetCD_spec (st : WB) (p c0 : String) (hcd : currentDocument st = some (p, c0)) :
    (getFile st p = none → resetCurrentDocument st = st) ∧
    (∀ q, getFile st p = some q →
      resetCurrentDocument st = setCurrentDocumentContent st q.1) := by
  unfold resetCurrentDocument
  rw [hcd]
  dsimp only
  constructor
  · intro hg
    rw [hg]
  · intro q hg
    rw [hg]

theorem runActionFile_spec (workdir : String) (st : WB) (d : ActionCallbackData) (b : Bool)
    (hs : (getArtifact st d.messageId).isSome) :
    (runActionFile workdir st d b).selectedFile = some (nodeJoin workdir d.action.filePath) ∧
    (runActionFile workdir st d b).currentView = "code" ∧
    lookupStr (runActionFile workdir st d b).documents (nodeJoin workdir d.action.filePath) =
      some (if b then d.action.content
        else match getFile st (nodeJoin workdir d.action.filePath) with
          | some q => q.1
          | none => d.action.content) ∧
    runnerRuns (runActionFile workdir st d b) d.messageId =
      runnerRuns st d.messageId ++
        (if lookupStr st.documents (nodeJoin workdir d.action.filePath) = none then [(d, b)]
         else []) ++
        (if b then [] else [(d, false)]) := by
  unfold runActionFile
  dsimp only
  set fp := nodeJoin workdir d.action.filePath with hfp
  set st1 := if st.selectedFile ≠ some fp then setSelectedFile st (some fp) else st with hst1
  set st2 := if st1.currentView ≠ "code" then { st1 with currentView := "code" } else st1 with hst2
  set st3 := if (lookupStr st2.documents fp).isNone then forwardRun st2 d.messageId d b else st2
    with hst3
  set st4 := updateFileDoc st3 fp d.action.content with hst4
  have hfpne : fp ≠ "" := by
    rw [hfp]
    exact nodeJoin_ne_empty workdir d.action.filePath
  have h1sel : st1.selectedFile = some fp := by
    rw [hst1]
    by_cases h : st.selectedFile = some fp <;> simp [h, setSelectedFile]
  have h1docs : st1.documents = st.documents := by
    rw [hst1]; split <;> rfl
  have h1files : st1.files = st.files := by
    rw [hst1]; split <;> rfl
  have h1arts : st1.artifacts = st.artifacts := by
    rw [hst1]; split <;> rfl
  have h2sel : st2.selectedFile = some fp := by
    rw [hst2]
    split <;> exact h1sel
  have h2view : st2.currentView = "code" := by
    rw [hst2]
    by_cases h : st1.currentView = "code" <;> simp [h]
  have h2docs : st2.documents = st.documents := by
    rw [hst2]
    split <;> exact h1docs
  have h2files : st2.files = st.files := by
    rw [hst2]
    split <;> exact h1files
  have h2arts : st2.artifacts = st.artifacts := by
    rw [hst2]
    split <;> exact h1arts
  have h2some : (getArtifact st2 d.messageId).isSome :=
    getArtifact_isSome_of_artifacts_eq st st2 d.messageId h2arts hs
  have h3sel : st3.selectedFile = some fp := by
    rw [hst3]
    split
    · rw [forwardRun_selectedFile]
      exact h2sel
    · exact h2sel
  have h3view : st3.currentView = "code" := by
    rw [hst3]
    split
    · rw [forwardRun_currentView]
      exact h2view
    · exact h2view
  have h3docs : st3.documents = st.documents := by
    rw [hst3]
    split
    · rw [forwardRun_documents]
      exact h2docs
    · exact h2docs
  have h3files : st3.files = st.files := by
    rw [hst3]
    split
    · rw [forwardRun_files]
      exact h2files
    · exact h2files
  have h3some : (getArtifact st3 d.messageId).isSome := by
    rw [hst3]
    split
    · exact getArtifact_forwardRun_isSome st2 d.messageId d b h2some
    · exact h2some
  have h3runs : runnerRuns st3 d.messageId =
      runnerRuns st d.messageId ++
        (if lookupStr st.documents fp = none then [(d, b)] else []) := by
    rw [hst3, h2docs]
    cases hdm : lookupStr st.documents fp with
    | none =>
        simp only [hdm, Option.isNone_none, if_true, ite_true]
        rw [runnerRuns_forwardRun st2 d.messageId d b h2some,
          runnerRuns_eq_of_artifacts_eq st st2 d.messageId h2arts]
    | some w =>
        simp only [hdm, Option.isNone_some, Bool.false_eq_true, if_false, ite_false]
        rw [runnerRuns_eq_of_artifacts_eq st st2 d.messageId h2arts]
        simp
  have h4sel : st4.selectedFile = some fp := by
    rw [hst4, updateFileDoc_selectedFile]
    exact h3sel
  have h4view : st4.currentView = "code" := by
    rw [hst4, updateFileDoc_currentView]
    exact h3view
  have h4files : st4.files = st.files := by
    rw [hst4, updateFileDoc_files]
    exact h3files
  have h4some : (getArtifact st4 d.messageId).isSome := by
    rw [hst4]
    exact getArtifact_isSome_of_artifacts_eq st3 _ d.messageId rfl h3some
  have h4runs : runnerRuns st4 d.messageId = runnerRuns st3 d.messageId := by
    rw [hst4]
    exact runnerRuns_eq_of_artifacts_eq st3 _ d.messageId rfl
  have h4lookup : lookupStr st4.documents fp = some d.action.content := by
    rw [hst4, updateFileDoc_documents]
    exact lookup_setKey_self _ _ _
  have h4cd : currentDocument st4 = some (fp, d.action.content) := by
    unfold currentDocument
    rw [h4sel]
    dsimp only
    rw [h4lookup]
    rfl
  have h4getFile : getFile st4 fp = getFile st fp := by
    unfold getFile
    rw [h4files]
  by_cases hb : b = true
  · rw [if_pos hb]
    refine ⟨h4sel, h4view, ?_, ?_⟩
    · rw [h4lookup, if_pos hb]
    · rw [h4runs, h3runs, if_pos hb]
      simp
  · have hb2 : b = false := by
      revert hb
      cases b <;> simp
    subst hb2
    have hfalse : ¬ ((false : Bool) = true) := by simp
    rw [if_neg hfalse]
    cases hgf : getFile st fp with
      | none =>
          have hreset : resetCurrentDocument st4 = st4 := by
            refine (resetCD_spec st4 fp d.action.content h4cd).1 ?_
            rw [h4getFile, hgf]
          rw [hreset]
          refine ⟨?_, ?_, ?_, ?_⟩
          · rw [forwardRun_selectedFile]
            exact h4sel
          · rw [forwardRun_currentView]
            exact h4view
          · rw [forwardRun_documents, h4lookup]
            rfl
          · rw [runnerRuns_forwardRun st4 d.messageId d false h4some, h4runs, h3runs]
            simp
      | some q =>
          have hreset : resetCurrentDocument st4 = setCurrentDocumentContent st4 q.1 := by
            refine (resetCD_spec st4 fp d.action.content h4cd).2 q ?_
            rw [h4getFile, hgf]
          have hcdcF := setCDC_other_fields st4 q.1
          have hcdcD := setCDC_documents st4 fp d.action.content q.1 h4cd hfpne
          rw [hreset]
          refine ⟨?_, ?_, ?_, ?_⟩
          · rw [forwardRun_selectedFile, hcdcF.2.1]
            exact h4sel
          · rw [forwardRun_currentView, hcdcF.2.2.1]
            exact h4view
          · rw [forwardRun_documents, hcdcD, lookup_setKey_self]
            rfl
          · have hsomeC : (getArtifact (setCurrentDocumentContent st4 q.1) d.messageId).isSome :=
              getArtifact_isSome_of_artifacts_eq st4 _ d.messageId hcdcF.2.2.2 h4some
            rw [runnerRuns_forwardRun _ d.messageId d false hsomeC,
              runnerRuns_eq_of_artifacts_eq st4 _ d.messageId hcdcF.2.2.2, h4runs, h3runs]
            simp

/-- C1: runAction with a registered artifact dispatches on exactly the
tag of the action: the file tag takes the file-write branch (the file at
the workdir joined with the action filePath becomes the selected file,
the view switches to code, the editor document at that path is updated
with the action content, which the non-streaming reset then replaces by
the saved files-store content when one exists, and the action is run
through the runner of the artifact exactly when the document did not
exist yet or when not streaming); every other tag forwards the action
unchanged to the ActionRunner of the artifact; there is no third kind of
handling. -/
theorem runAction_dispatch (workdir : String) (st : WB) (d : ActionCallbackData)
    (streaming : Bool) (a : ArtifactState) (ha : getArtifact st d.messageId = some a) :
    (d.action.type = "file" →
      runAction workdir st d streaming = (runActionFile workdir st d streaming, none) ∧
      (runActionFile workdir st d streaming).selectedFile =
        some (nodeJoin workdir d.action.filePath) ∧
      (runActionFile workdir st d streaming).currentView = "code" ∧
      lookupStr (runActionFile workdir st d streaming).documents
          (nodeJoin workdir d.action.filePath) =
        some (if streaming then d.action.content
          else match getFile st (nodeJoin workdir d.action.filePath) with
            | some q => q.1
            | none => d.action.content) ∧
      runnerRuns (runActionFile workdir st d streaming) d.messageId =
        runnerRuns st d.messageId ++
          (if lookupStr st.documents (nodeJoin workdir d.action.filePath) = none
           then [(d, streaming)] else []) ++
          (if streaming then [] else [(d, false)])) ∧
    (d.action.type ≠ "file" →
      runAction workdir st d streaming = (forwardRun st d.messageId d false, none)) := by
  have hs : (getArtifact st d.messageId).isSome := by
    rw [ha]
    rfl
  constructor
  · intro hf
    have hrun : runAction workdir st d streaming = (runActionFile workdir st d streaming, none) := by
      unfold runAction
      rw [ha]
      dsimp only
      rw [if_pos hf]
    exact ⟨hrun, runActionFile_spec workdir st d streaming hs⟩
  · intro hf
    unfold runAction
    rw [ha]
    dsimp only
    rw [if_neg hf]

def actFileW : ActionCallbackData := ⟨"a1", "m1", "0", ⟨"file", "index.js", "hello"⟩⟩

/-! ## The non-binary files of the files store, the common domain of the
zip and sync loops. -/

def nonBinaryFiles (files : List (String × Option Dirent)) : List (String × String) :=
  files.filterMap (fun pr =>
    match pr.2 with
    | some (Dirent.file c isBin) => if isBin then none else some (pr.1, c)
    | _ => none)

theorem syncFiles_aux (files : List (String × Option Dirent))
    (acc : List String × List (List String × String)) :
    files.foldl (fun acc pr =>
      match pr.2 with
      | some (Dirent.file c isBin) =>
          if isBin then acc
          else
            let relativePath := stripProjectRoot pr.1
            let pathSegments := splitChar '/' relativePath
            let currentHandle := pathSegments.dropLast.foldl
              (fun (h : List String) seg => h ++ [seg]) []
            (acc.1 ++ [relativePath],
              acc.2 ++ [(currentHandle ++ [pathSegments.getD (pathSegments.length - 1) ""], c)])
      | _ => acc) acc =
    (acc.1 ++ (nonBinaryFiles files).map (fun q => stripProjectRoot q.1),
     acc.2 ++ (nonBinaryFiles files).map
       (fun q => (splitChar '/' (stripProjectRoot q.1), q.2))) := by
  induction files generalizing acc with
  | nil => simp [nonBinaryFiles]
  | cons pr t ih =>
      obtain ⟨p, od⟩ := pr
      rw [List.foldl_cons]
      cases od with
      | none =>
          rw [ih]
          simp [nonBinaryFiles]
      | some dd =>
          cases dd with
          | folder =>
              rw [ih]
              simp [nonBinaryFiles]
          | file c isBin =>
              dsimp only
              by_cases hbin : isBin = true
              · rw [if_pos hbin, ih]
                simp [nonBinaryFiles, hbin]
              · rw [if_neg hbin, ih]
                have hseg := dropLast_append_getD (splitChar '/' (stripProjectRoot p))
                  (splitChar_ne_nil '/' (stripProjectRoot p)) ""
                rw [foldl_append_singleton, List.nil_append, hseg]
                simp [nonBinaryFiles, hbin, List.append_assoc]

/-- C5: syncFiles returns exactly the stripped relative paths of the
non-binary file entries of the files store, in files-map order, and its
writes through the target directory handle are exactly those files,
written at the segment path of the stripped relative path with the file
content; binary files and folder entries produce no write. -/
theorem syncFiles_spec (st : WB) :
    (syncFiles st).1 = (nonBinaryFiles st.files).map (fun q => stripProjectRoot q.1) ∧
    (syncFiles st).2 = (nonBinaryFiles st.files).map
      (fun q => (splitChar '/' (stripProjectRoot q.1), q.2)) := by
  unfold syncFiles
  rw [syncFiles_aux st.files ([], [])]
  exact ⟨by simp, by simp⟩

theorem runAction_dispatch_witness :
    (runActionFile "/home/project" wbArt actFileW false).selectedFile =
      some "/home/project/index.js" ∧
    (runActionFile "/home/project" wbArt actFileW false).currentView = "code" ∧
    runAction "/home/project" wbArt actShellW false = (forwardRun wbArt "m1" actShellW false, none)
    := by
  refine ⟨?_, ?_, ?_⟩
  · rw [((runAction_dispatch "/home/project" wbArt actFileW false artW rfl).1 rfl).2.1]
    decide
  · exact ((runAction_dispatch "/home/project" wbArt actFileW false artW rfl).1 rfl).2.2.1
  · exact (runAction_dispatch "/home/project" wbArt actShellW false artW rfl).2 (by decide)

/-! ## Lemmas about keys and segments for the zip archive claims. -/

def lastChar (s : String) : Option Char := s.toList.getLast?

theorem mem_of_getLast?_eq {α : Type} (l : List α) (a : α) (h : l.getLast? = some a) :
    a ∈ l := by
  have h2 : l ≠ [] := by
    intro hh
    subst hh
    simp at h
  have h3 := List.getLast?_eq_getLast l h2
  rw [h3] at h
  injection h with h4
  rw [← h4]
  exact List.getLast_mem h2

theorem string_ne_empty_toList (s : String) (h : s ≠ "") : s.toList ≠ [] := by
  intro hl
  apply h
  have := congrArg (fun l => String.mk l) hl
  simpa [string_mk_toList] using this

theorem lastChar_append_slash (a : String) : lastChar (a ++ "/") = some '/' := by
  unfold lastChar
  have hd : (a ++ "/").toList = a.toList ++ ['/'] := string_data_append a "/"
  rw [hd]
  exact List.getLast?_concat _

theorem lastChar_append_right (a b : String) (h : b ≠ "") :
    lastChar (a ++ b) = lastChar b := by
  unfold lastChar
  have hd : (a ++ b).toList = a.toList ++ b.toList := string_data_append a b
  rw [hd]
  exact List.getLast?_append_of_ne_nil a.toList (string_ne_empty_toList b h)

theorem splitCharAux_ne_single_nil (c : Char) (l : List Char) (h : l ≠ []) :
    splitCharAux c l ≠ [[]] := by
  cases l with
  | nil => exact absurd rfl h
  | cons a t =>
      simp only [splitCharAux]
      cases hr : splitCharAux c t with
      | nil => exact absurd hr (splitCharAux_ne_nil c t)
      | cons h2 t2 =>
          by_cases hac : a = c
          · simp [hac]
          · simp [hac]

theorem splitCharAux_getLast_of_ends (c : Char) (l : List Char)
    (h : l.getLast? = some c) : (splitCharAux c l).getLast? = some [] := by
  induction l with
  | nil => simp at h
  | cons a t ih =>
      cases t with
      | nil =>
          simp only [List.getLast?_singleton, Option.some.injEq] at h
          subst h
          simp [splitCharAux]
      | cons b t2 =>
          have ht : (b :: t2).getLast? = some c := by
            rw [← h]
            exact (List.getLast?_cons_cons).symm
          have ih2 := ih ht
          rw [splitCharAux]
          cases hr : splitCharAux c (b :: t2) with
          | nil => exact absurd hr (splitCharAux_ne_nil c (b :: t2))
          | cons h2 tt =>
              rw [hr] at ih2
              dsimp only
              by_cases hac : a = c
              · rw [if_pos hac, List.getLast?_cons_cons]
                exact ih2
              · rw [if_neg hac]
                cases tt with
                | nil =>
                    simp only [List.getLast?_singleton, Option.some.injEq] at ih2
                    subst ih2
                    exact absurd hr (splitCharAux_ne_single_nil c (b :: t2) (by simp))
                | cons h3 tt2 =>
                    rw [List.getLast?_cons_cons]
                    rw [List.getLast?_cons_cons] at ih2
                    exact ih2

theorem lastChar_ne_slash_of_no_empty_seg (s : String) (h : "" ∉ splitChar '/' s) :
    lastChar s ≠ some '/' := by
  intro hl
  apply h
  have h1 : (splitCharAux '/' s.toList).getLast? = some [] :=
    splitCharAux_getLast_of_ends '/' s.toList hl
  have h2 : ([] : List Char) ∈ splitCharAux '/' s.toList := mem_of_getLast?_eq _ _ h1
  unfold splitChar
  exact List.mem_map.mpr ⟨[], h2, rfl⟩

theorem relPath_ne_empty_of_no_empty_seg (s : String) (h : "" ∉ splitChar '/' s) :
    s ≠ "" := by
  intro hs
  subst hs
  exact h (by decide)

theorem string_append_left_cancel (r a b : String) (h : r ++ a = r ++ b) : a = b := by
  have hd := congrArg String.data h
  rw [string_data_append, string_data_append] at hd
  exact String.ext (List.append_cancel_left hd)

@[simp] theorem string_empty_append (s : String) : "" ++ s = s := by
  apply String.ext
  rw [string_data_append]
  simp [show ("" : String).data = [] from rfl]

theorem hasKey_false_of_forall {α : Type} (es : List (String × α)) (k : String)
    (h : ∀ pr ∈ es, pr.1 ≠ k) : hasKey es k = false := by
  induction es with
  | nil => rfl
  | cons p t ih =>
      simp only [hasKey, Bool.or_eq_false_iff, decide_eq_false_iff_not]
      constructor
      · exact h p (by simp)
      · exact ih (fun pr hpr => h pr (by simp [hpr]))

theorem setKey_append_of_hasKey_false {α : Type} (es : List (String × α)) (k : String)
    (v : α) (h : hasKey es k = false) : setKey es k v = es ++ [(k, v)] := by
  unfold setKey
  rw [h]
  simp

/-! ## The file entries of an archive and the invariants of the zip
loops. -/

def fileEntriesOf (es : List (String × ZEntry)) : List (String × ZContent) :=
  (es.filter (fun pr => !pr.2.dir)).map (fun pr => (pr.1, pr.2.content))

/-- Every directory entry has a key ending in a slash. -/
def DirsSlash (es : List (String × ZEntry)) : Prop :=
  ∀ pr ∈ es, pr.2.dir = true → lastChar pr.1 = some '/'

theorem fileEntriesOf_append_dir (es : List (String × ZEntry)) (k : String) (e : ZEntry)
    (he : e.dir = true) : fileEntriesOf (es ++ [(k, e)]) = fileEntriesOf es := by
  unfold fileEntriesOf
  rw [List.filter_append]
  simp [he]

theorem fileEntriesOf_append_file (es : List (String × ZEntry)) (k : String) (e : ZEntry)
    (he : e.dir = false) :
    fileEntriesOf (es ++ [(k, e)]) = fileEntriesOf es ++ [(k, e.content)] := by
  unfold fileEntriesOf
  rw [List.filter_append]
  simp [he]

theorem folderStep_fileEntries (es : List (String × ZEntry)) (root seg : String) :
    fileEntriesOf (folderStep es root seg).1 = fileEntriesOf es := by
  unfold folderStep
  dsimp only
  by_cases h : hasKey es (root ++ seg ++ "/")
  · rw [if_pos h]
  · rw [if_neg h]
    exact fileEntriesOf_append_dir es _ _ rfl

theorem folderStep_DirsSlash (es : List (String × ZEntry)) (root seg : String)
    (h : DirsSlash es) : DirsSlash (folderStep es root seg).1 := by
  unfold folderStep
  dsimp only
  by_cases hk : hasKey es (root ++ seg ++ "/")
  · rw [if_pos hk]
    exact h
  · rw [if_neg hk]
    intro pr hpr hd
    rcases List.mem_append.mp hpr with hin | hin
    · exact h pr hin hd
    · simp only [List.mem_singleton] at hin
      subst hin
      exact lastChar_append_slash (root ++ seg)

theorem folderStep_mem (es : List (String × ZEntry)) (root seg : String) (pr : String × ZEntry)
    (h : pr ∈ (folderStep es root seg).1) :
    pr ∈ es ∨ (pr.2.dir = true ∧ lastChar pr.1 = some '/') := by
  unfold folderStep at h
  dsimp only at h
  by_cases hk : hasKey es (root ++ seg ++ "/")
  · rw [if_pos hk] at h
    exact Or.inl h
  · rw [if_neg hk] at h
    rcases List.mem_append.mp h with hin | hin
    · exact Or.inl hin
    · simp only [List.mem_singleton] at hin
      subst hin
      exact Or.inr ⟨rfl, lastChar_append_slash (root ++ seg)⟩

theorem nav_fileEntries (segs : List String) (es : List (String × ZEntry)) (root : String) :
    fileEntriesOf (segs.foldl navStep (es, root)).1 = fileEntriesOf es := by
  induction segs generalizing es root with
  | nil => rfl
  | cons s t ih =>
      rw [List.foldl_cons]
      have h2 : navStep (es, root) s = ((folderStep es root s).1, (folderStep es root s).2) := rfl
      rw [h2, ih, folderStep_fileEntries]

theorem nav_DirsSlash (segs : List String) (es : List (String × ZEntry)) (root : String)
    (h : DirsSlash es) : DirsSlash (segs.foldl navStep (es, root)).1 := by
  induction segs generalizing es root with
  | nil => exact h
  | cons s t ih =>
      rw [List.foldl_cons]
      have h2 : navStep (es, root) s = ((folderStep es root s).1, (folderStep es root s).2) := rfl
      rw [h2]
      exact ih _ _ (folderStep_DirsSlash es root s h)

theorem nav_mem (segs : List String) (es : List (String × ZEntry)) (root : String)
    (pr : String × ZEntry) (h : pr ∈ (segs.foldl navStep (es, root)).1) :
    pr ∈ es ∨ (pr.2.dir = true ∧ lastChar pr.1 = some '/') := by
  induction segs generalizing es root with
  | nil => exact Or.inl h
  | cons s t ih =>
      rw [List.foldl_cons] at h
      have h2 : navStep (es, root) s = ((folderStep es root s).1, (folderStep es root s).2) := rfl
      rw [h2] at h
      rcases ih _ _ h with hin | hd
      · exact folderStep_mem es root s pr hin
      · exact Or.inr hd

theorem joinSegs_cons (s : String) (l : List String) (h : l ≠ []) :
    joinSegs (s :: l) = s ++ "/" ++ joinSegs l := by
  cases l with
  | nil => exact absurd rfl h
  | cons a t => rfl

theorem nav_root_append (segs : List String) (es : List (String × ZEntry)) (root : String)
    (lastS : String) :
    (segs.foldl navStep (es, root)).2 ++ lastS = root ++ joinSegs (segs ++ [lastS]) := by
  induction segs generalizing es root with
  | nil => rfl
  | cons s t ih =>
      rw [List.foldl_cons]
      have h2 : navStep (es, root) s = ((folderStep es root s).1, root ++ s ++ "/") := rfl
      rw [h2, ih]
      rw [List.cons_append, joinSegs_cons s (t ++ [lastS]) (by simp)]
      rw [← String.append_assoc, ← String.append_assoc]

theorem DirsSlash_append_file (es : List (String × ZEntry)) (k : String) (e : ZEntry)
    (he : e.dir = false) (h : DirsSlash es) : DirsSlash (es ++ [(k, e)]) := by
  intro pr hpr hd
  rcases List.mem_append.mp hpr with hin | hin
  · exact h pr hin hd
  · simp only [List.mem_singleton] at hin
    subst hin
    rw [he] at hd
    cases hd

theorem dir_eq_false_of_not_true (b : Bool) (h : ¬ b = true) : b = false := by
  revert h
  cases b <;> simp

theorem addFileAt_spec (es : List (String × ZEntry)) (root relPath content : String)
    (hds : DirsSlash es)
    (hnk : ∀ pr ∈ es, pr.2.dir = false → pr.1 ≠ root ++ relPath)
    (hseg : "" ∉ splitChar '/' relPath) :
    fileEntriesOf (addFileAt es root relPath content) =
      fileEntriesOf es ++ [(root ++ relPath, ZContent.zstr content)] ∧
    DirsSlash (addFileAt es root relPath content) ∧
    (∀ pr ∈ addFileAt es root relPath content, pr.2.dir = false →
      pr ∈ es ∨ pr.1 = root ++ relPath) := by
  have hrne : relPath ≠ "" := relPath_ne_empty_of_no_empty_seg relPath hseg
  have hkey_last : lastChar (root ++ relPath) ≠ some '/' := by
    rw [lastChar_append_right root relPath hrne]
    exact lastChar_ne_slash_of_no_empty_seg relPath hseg
  unfold addFileAt
  dsimp only
  by_cases hlen : (splitChar '/' relPath).length > 1
  · rw [if_pos hlen]
    have hkey : (((splitChar '/' relPath).dropLast.foldl navStep (es, root)).2 ++
        (splitChar '/' relPath).getD ((splitChar '/' relPath).length - 1) "") =
        root ++ relPath := by
      rw [nav_root_append]
      rw [dropLast_append_getD _ (splitChar_ne_nil '/' relPath) ""]
      rw [joinSegs_splitChar]
    rw [hkey]
    have hhk : hasKey ((splitChar '/' relPath).dropLast.foldl navStep (es, root)).1
        (root ++ relPath) = false := by
      apply hasKey_false_of_forall
      intro pr hpr
      rcases nav_mem _ _ _ pr hpr with hin | hd2
      · by_cases hdir : pr.2.dir = true
        · intro hEq
          apply hkey_last
          rw [← hEq]
          exact hds pr hin hdir
        · exact hnk pr hin (dir_eq_false_of_not_true _ hdir)
      · intro hEq
        apply hkey_last
        rw [← hEq]
        exact hd2.2
    rw [setKey_append_of_hasKey_false _ _ _ hhk]
    refine ⟨?_, ?_, ?_⟩
    · rw [fileEntriesOf_append_file _ _ _ rfl, nav_fileEntries]
    · exact DirsSlash_append_file _ _ _ rfl (nav_DirsSlash _ _ _ hds)
    · intro pr hpr hdf
      rcases List.mem_append.mp hpr with hin | hin
      · rcases nav_mem _ _ _ pr hin with hin2 | hd2
        · exact Or.inl hin2
        · rw [hdf] at hd2
          cases hd2.1
      · simp only [List.mem_singleton] at hin
        subst hin
        exact Or.inr rfl
  · rw [if_neg hlen]
    have hhk : hasKey es (root ++ relPath) = false := by
      apply hasKey_false_of_forall
      intro pr hpr
      by_cases hdir : pr.2.dir = true
      · intro hEq
        apply hkey_last
        rw [← hEq]
        exact hds pr hpr hdir
      · exact hnk pr hpr (dir_eq_false_of_not_true _ hdir)
    rw [setKey_append_of_hasKey_false _ _ _ hhk]
    refine ⟨fileEntriesOf_append_file _ _ _ rfl, DirsSlash_append_file _ _ _ rfl hds, ?_⟩
    intro pr hpr hdf
    rcases List.mem_append.mp hpr with hin | hin
    · exact Or.inl hin
    · simp only [List.mem_singleton] at hin
      subst hin
      exact Or.inr rfl

theorem addProjectFiles_spec (root : String) :
    ∀ (files : List (String × Option Dirent)) (es : List (String × ZEntry)),
    DirsSlash es →
    (∀ pr ∈ es, pr.2.dir = false →
      ∀ q ∈ nonBinaryFiles files, pr.1 ≠ root ++ stripProjectRoot q.1) →
    ((nonBinaryFiles files).map (fun q => stripProjectRoot q.1)).Nodup →
    (∀ q ∈ nonBinaryFiles files, "" ∉ splitChar '/' (stripProjectRoot q.1)) →
    fileEntriesOf (addProjectFiles es root files) =
      fileEntriesOf es ++ (nonBinaryFiles files).map
        (fun q => (root ++ stripProjectRoot q.1, ZContent.zstr q.2)) := by
  intro files
  induction files with
  | nil =>
      intro es hds hnk hnd hseg
      simp [addProjectFiles, nonBinaryFiles]
  | cons pr t ih =>
      intro es hds hnk hnd hseg
      obtain ⟨p, od⟩ := pr
      unfold addProjectFiles
      rw [List.foldl_cons]
      cases od with
      | none =>
          have hnb : nonBinaryFiles ((p, none) :: t) = nonBinaryFiles t := by
            simp [nonBinaryFiles]
          dsimp only
          show fileEntriesOf (addProjectFiles es root t) = _
          rw [hnb] at hnk hnd hseg ⊢
          exact ih es hds hnk hnd hseg
      | some dd =>
          cases dd with
          | folder =>
              have hnb : nonBinaryFiles ((p, some Dirent.folder) :: t) = nonBinaryFiles t := by
                simp [nonBinaryFiles]
              dsimp only
              show fileEntriesOf (addProjectFiles es root t) = _
              rw [hnb] at hnk hnd hseg ⊢
              exact ih es hds hnk hnd hseg
          | file c isBin =>
              dsimp only
              by_cases hbin : isBin = true
              · have hnb : nonBinaryFiles ((p, some (Dirent.file c isBin)) :: t) =
                    nonBinaryFiles t := by
                  simp [nonBinaryFiles, hbin]
                rw [if_pos hbin]
                show fileEntriesOf (addProjectFiles es root t) = _
                rw [hnb] at hnk hnd hseg ⊢
                exact ih es hds hnk hnd hseg
              · have hnb : nonBinaryFiles ((p, some (Dirent.file c isBin)) :: t) =
                    (p, c) :: nonBinaryFiles t := by
                  simp [nonBinaryFiles, hbin]
                rw [hnb] at hnk hnd hseg ⊢
                rw [if_neg hbin]
                have hA := addFileAt_spec es root (stripProjectRoot p) c hds
                  (fun pr2 hpr2 hdf => hnk pr2 hpr2 hdf (p, c) (by simp))
                  (hseg (p, c) (by simp))
                have hds2 := hA.2.1
                have hnk2 : ∀ pr2 ∈ addFileAt es root (stripProjectRoot p) c,
                    pr2.2.dir = false → ∀ q ∈ nonBinaryFiles t,
                    pr2.1 ≠ root ++ stripProjectRoot q.1 := by
                  intro pr2 hpr2 hdf q hq2 hEq
                  rcases hA.2.2 pr2 hpr2 hdf with hin | hkey
                  · exact hnk pr2 hin hdf q (by simp [hq2]) hEq
                  · rw [hkey] at hEq
                    have hstrip := string_append_left_cancel root _ _ hEq
                    simp only [List.map_cons, List.nodup_cons] at hnd
                    exact hnd.1 (hstrip ▸ List.mem_map.mpr ⟨q, hq2, rfl⟩)
                have hnd2 : ((nonBinaryFiles t).map (fun q => stripProjectRoot q.1)).Nodup := by
                  simp only [List.map_cons, List.nodup_cons] at hnd
                  exact hnd.2
                have hseg2 : ∀ q ∈ nonBinaryFiles t,
                    "" ∉ splitChar '/' (stripProjectRoot q.1) :=
                  fun q hq2 => hseg q (by simp [hq2])
                have hih := ih (addFileAt es root (stripProjectRoot p) c) hds2 hnk2 hnd2 hseg2
                show fileEntriesOf
                  (addProjectFiles (addFileAt es root (stripProjectRoot p) c) root t) = _
                rw [hih, hA.1]
                simp [List.append_assoc]

/-- C6: the file entries of the archive produced by downloadZip are
exactly one entry per non-binary file dirent of the files store, placed
at the stripped relative path (the folder navigation contributes only
directory entries) and holding the file content; binary files and
folder dirents contribute no file entry.  The hypotheses are the
well-formedness of the files store: stripped paths are pairwise distinct
and contain no empty segment. -/
theorem downloadZip_spec (st : WB)
    (hnd : ((nonBinaryFiles st.files).map (fun q => stripProjectRoot q.1)).Nodup)
    (hseg : ∀ q ∈ nonBinaryFiles st.files, "" ∉ splitChar '/' (stripProjectRoot q.1)) :
    fileEntriesOf (downloadZip st).entries =
      (nonBinaryFiles st.files).map (fun q => (stripProjectRoot q.1, ZContent.zstr q.2)) := by
  unfold downloadZip
  dsimp only
  rw [addProjectFiles_spec "" st.files [] (fun pr h => absurd h (List.not_mem_nil pr))
    (fun pr h => absurd h (List.not_mem_nil pr)) hnd hseg]
  simp [fileEntriesOf]

def wbFiles : WB :=
  ⟨[("/home/project/pkg.json", some (Dirent.file "P" false)),
    ("/home/project/src/a.ts", some (Dirent.file "A" false)),
    ("/home/project/src", some Dirent.folder),
    ("/home/project/img.png", some (Dirent.file "B" true))],
   [], none, "code", [], [], [], none, []⟩

theorem downloadZip_spec_witness :
    fileEntriesOf (downloadZip wbFiles).entries =
      [("pkg.json", ZContent.zstr "P"), ("src/a.ts", ZContent.zstr "A")] := by
  rw [downloadZip_spec wbFiles (by decide) (by decide)]
  rfl

/-! ## The exportProject archive. -/

theorem mem_setKey {α : Type} (es : List (String × α)) (k : String) (v : α)
    (pr : String × α) (h : pr ∈ setKey es k v) : pr ∈ es ∨ pr = (k, v) := by
  unfold setKey at h
  by_cases hk : hasKey es k
  · rw [if_pos hk] at h
    clear hk
    induction es with
    | nil => exact Or.inl h
    | cons p t ih =>
        obtain ⟨k0, w⟩ := p
        simp only [replaceKey] at h
        by_cases h0 : k0 = k
        · rw [if_pos h0] at h
          rcases List.mem_cons.mp h with hh | hh
          · subst h0
            exact Or.inr (by rw [hh])
          · rcases ih hh with hin | he
            · exact Or.inl (List.mem_cons_of_mem _ hin)
            · exact Or.inr he
        · rw [if_neg h0] at h
          rcases List.mem_cons.mp h with hh | hh
          · exact Or.inl (by rw [hh]; exact List.mem_cons_self _ _)
          · rcases ih hh with hin | he
            · exact Or.inl (List.mem_cons_of_mem _ hin)
            · exact Or.inr he
  · rw [if_neg hk] at h
    rcases List.mem_append.mp h with hin | hin
    · exact Or.inl hin
    · simp only [List.mem_singleton] at hin
      exact Or.inr hin

theorem addFileAt_mem (es : List (String × ZEntry)) (root relPath content : String)
    (pr : String × ZEntry) (h : pr ∈ addFileAt es root relPath content) :
    pr ∈ es ∨ (pr.2.dir = true ∧ lastChar pr.1 = some '/') ∨
      pr = (root ++ relPath, ⟨false, ZContent.zstr content⟩) := by
  unfold addFileAt at h
  dsimp only at h
  by_cases hlen : (splitChar '/' relPath).length > 1
  · rw [if_pos hlen] at h
    have hkey : (((splitChar '/' relPath).dropLast.foldl navStep (es, root)).2 ++
        (splitChar '/' relPath).getD ((splitChar '/' relPath).length - 1) "") =
        root ++ relPath := by
      rw [nav_root_append]
      rw [dropLast_append_getD _ (splitChar_ne_nil '/' relPath) ""]
      rw [joinSegs_splitChar]
    rw [hkey] at h
    rcases mem_setKey _ _ _ pr h with hin | he
    · rcases nav_mem _ _ _ pr hin with hin2 | hd2
      · exact Or.inl hin2
      · exact Or.inr (Or.inl hd2)
    · exact Or.inr (Or.inr he)
  · rw [if_neg hlen] at h
    rcases mem_setKey _ _ _ pr h with hin | he
    · exact Or.inl hin
    · exact Or.inr (Or.inr he)

theorem addProjectFiles_mem (root : String) :
    ∀ (files : List (String × Option Dirent)) (es : List (String × ZEntry))
      (pr : String × ZEntry), pr ∈ addProjectFiles es root files →
    pr ∈ es ∨ (pr.2.dir = true ∧ lastChar pr.1 = some '/') ∨
      (∃ q ∈ nonBinaryFiles files,
        pr = (root ++ stripProjectRoot q.1, ⟨false, ZContent.zstr q.2⟩)) := by
  intro files
  induction files with
  | nil =>
      intro es pr h
      exact Or.inl h
  | cons p2 t ih =>
      intro es pr h
      obtain ⟨p, od⟩ := p2
      unfold addProjectFiles at h
      rw [List.foldl_cons] at h
      cases od with
      | none =>
          rcases ih es pr h with hin | hd | ⟨q, hq, he⟩
          · exact Or.inl hin
          · exact Or.inr (Or.inl hd)
          · exact Or.inr (Or.inr ⟨q, by simp [nonBinaryFiles] at hq ⊢; exact hq, he⟩)
      | some dd =>
          cases dd with
          | folder =>
              rcases ih es pr h with hin | hd | ⟨q, hq, he⟩
              · exact Or.inl hin
              · exact Or.inr (Or.inl hd)
              · exact Or.inr (Or.inr ⟨q, by simp [nonBinaryFiles] at hq ⊢; exact hq, he⟩)
          | file c isBin =>
              dsimp only at h
              by_cases hbin : isBin = true
              · rw [if_pos hbin] at h
                rcases ih es pr h with hin | hd | ⟨q, hq, he⟩
                · exact Or.inl hin
                · exact Or.inr (Or.inl hd)
                · refine Or.inr (Or.inr ⟨q, ?_, he⟩)
                  simp [nonBinaryFiles, hbin] at hq ⊢
                  exact hq
              · rw [if_neg hbin] at h
                rcases ih _ pr h with hin | hd | ⟨q, hq, he⟩
                · rcases addFileAt_mem es root (stripProjectRoot p) c pr hin with
                    hin2 | hd2 | he2
                  · exact Or.inl hin2
                  · exact Or.inr (Or.inl hd2)
                  · refine Or.inr (Or.inr ⟨(p, c), ?_, he2⟩)
                    simp [nonBinaryFiles, hbin]
                · exact Or.inr (Or.inl hd)
                · refine Or.inr (Or.inr ⟨q, ?_, he⟩)
                  simp [nonBinaryFiles, hbin] at hq ⊢
                  right
                  exact hq

theorem append_ne_of_take_ne (a x t : String)
    (h : t.data.take a.data.length ≠ a.data) : (a ++ x) ≠ t := by
  intro hEq
  apply h
  have hd := congrArg String.data hEq
  rw [string_data_append] at hd
  rw [← hd, List.take_left]

/-- C7 (amended): the archive of exportProject holds one file entry per
non-binary file of the files store at its stripped path inside the code
folder, then, when the database is available, a chat_history.json entry
with all stored chats, then a metadata.json entry with exportDate, the
version "1.0" and the project name; the save name is
backup-(projectName)-(datetime).zip where projectName is the first
artifact title lowercased with whitespace runs replaced by "-", falling
back to "project" when there is no artifact or when that transformed
title is empty. -/
theorem exportProject_spec (st : WB) (now : String)
    (hnd : ((nonBinaryFiles st.files).map (fun q => stripProjectRoot q.1)).Nodup)
    (hseg : ∀ q ∈ nonBinaryFiles st.files, "" ∉ splitChar '/' (stripProjectRoot q.1)) :
    (exportProject st now).map (fun pr => pr.2) =
      some ("backup-" ++ exportName st ++ "-" ++ exportDatetime now ++ ".zip") ∧
    (exportProject st now).map (fun pr => fileEntriesOf pr.1.entries) =
      some ((nonBinaryFiles st.files).map
          (fun q => ("code/" ++ stripProjectRoot q.1, ZContent.zstr q.2)) ++
        (match st.db with
         | some chats =>
             [("chat_history.json", ZContent.zjson (Json.jarr (chats.map chatRecJson)))]
         | none => []) ++
        [("metadata.json", ZContent.zjson (Json.jobj [("exportDate", Json.jstr now),
          ("version", Json.jstr "1.0"), ("projectName", Json.jstr (exportName st))]))]) := by
  have hroot : ("" : String) ++ "code" ++ "/" = "code/" := by decide
  have hfold : Zip.folder ⟨[], ""⟩ "code" =
      some ⟨[("code/", ⟨true, ZContent.zstr ""⟩)], "code/"⟩ := by
    simp [Zip.folder, folderStep, hasKey, hroot]
  have hds0 : DirsSlash [("code/", (⟨true, ZContent.zstr ""⟩ : ZEntry))] := by
    intro pr hpr hd
    simp only [List.mem_singleton] at hpr
    subst hpr
    decide
  have hnk0 : ∀ pr ∈ [("code/", (⟨true, ZContent.zstr ""⟩ : ZEntry))], pr.2.dir = false →
      ∀ q ∈ nonBinaryFiles st.files, pr.1 ≠ "code/" ++ stripProjectRoot q.1 := by
    intro pr hpr hdf
    simp only [List.mem_singleton] at hpr
    subst hpr
    cases hdf
  have hE1 : fileEntriesOf
      (addProjectFiles [("code/", ⟨true, ZContent.zstr ""⟩)] "code/" st.files) =
      (nonBinaryFiles st.files).map
        (fun q => ("code/" ++ stripProjectRoot q.1, ZContent.zstr q.2)) := by
    rw [addProjectFiles_spec "code/" st.files _ hds0 hnk0 hnd hseg]
    simp [fileEntriesOf]
  have hkeys : ∀ pr ∈ addProjectFiles [("code/", ⟨true, ZContent.zstr ""⟩)] "code/" st.files,
      pr.1 ≠ "chat_history.json" ∧ pr.1 ≠ "metadata.json" := by
    intro pr hpr
    rcases addProjectFiles_mem "code/" st.files _ pr hpr with hin | hd | ⟨q, hq, he⟩
    · simp only [List.mem_singleton] at hin
      subst hin
      exact ⟨by decide, by decide⟩
    · constructor <;> intro hEq <;> rw [hEq] at hd <;> exact absurd hd.2 (by decide)
    · rw [he]
      exact ⟨append_ne_of_take_ne "code/" _ _ (by decide),
        append_ne_of_take_ne "code/" _ _ (by decide)⟩
  have hhkChat : hasKey
      (addProjectFiles [("code/", ⟨true, ZContent.zstr ""⟩)] "code/" st.files)
      "chat_history.json" = false :=
    hasKey_false_of_forall _ _ (fun pr hpr => (hkeys pr hpr).1)
  have hhkMeta : hasKey
      (addProjectFiles [("code/", ⟨true, ZContent.zstr ""⟩)] "code/" st.files)
      "metadata.json" = false :=
    hasKey_false_of_forall _ _ (fun pr hpr => (hkeys pr hpr).2)
  unfold exportProject
  rw [hfold]
  dsimp only
  cases hdb : st.db with
  | none =>
      rw [setKey_append_of_hasKey_false _ _ _ hhkMeta]
      refine ⟨rfl, ?_⟩
      dsimp only [Option.map_some']
      rw [fileEntriesOf_append_file _ _ _ rfl, hE1]
      simp
  | some chats =>
      dsimp only
      rw [setKey_append_of_hasKey_false _ _ _ hhkChat]
      have hhkMeta2 : hasKey
          ((addProjectFiles [("code/", ⟨true, ZContent.zstr ""⟩)] "code/" st.files) ++
            [("chat_history.json",
              (⟨false, ZContent.zjson (Json.jarr (chats.map chatRecJson))⟩ : ZEntry))])
          "metadata.json" = false := by
        apply hasKey_false_of_forall
        intro pr hpr
        rcases List.mem_append.mp hpr with hin | hin
        · exact (hkeys pr hin).2
        · simp only [List.mem_singleton] at hin
          subst hin
          show ("chat_history.json" : String) ≠ "metadata.json"
          decide
      rw [setKey_append_of_hasKey_false _ _ _ hhkMeta2]
      refine ⟨rfl, ?_⟩
      dsimp only [Option.map_some']
      rw [fileEntriesOf_append_file _ _ _ rfl, fileEntriesOf_append_file _ _ _ rfl, hE1]

def wbTitleEmpty : WB :=
  ⟨[], [], none, "code", [], [("m1", ⟨"a1", "", false, emptyRunner⟩)], ["m1"], none, []⟩

/-- C7 counterexample: with a registered first artifact whose title is
the empty string, the export is saved under backup-project-... and not
under the name built from the lowercased whitespace-collapsed title (the
empty string), so the claim as stated is false: the fallback to
"project" is not limited to the no-artifact case. -/
theorem exportProject_name_cex :
    (exportProject wbTitleEmpty "2025-01-02T03:04:05.678Z").map (fun pr => pr.2) ≠
      some ("backup-" ++ collapseWs (jsToLower "") ++ "-" ++
        exportDatetime "2025-01-02T03:04:05.678Z" ++ ".zip") := by
  decide

def wbExpW : WB :=
  ⟨[("/home/project/pkg.json", some (Dirent.file "P" false)),
    ("/home/project/src/a.ts", some (Dirent.file "A" false))],
   [], none, "code", [], [("m1", ⟨"a1", "My App", false, emptyRunner⟩)], ["m1"], none, []⟩

theorem exportProject_spec_witness :
    (exportProject wbExpW "2025-01-02T03:04:05.678Z").map (fun pr => pr.2) =
      some "backup-my-app-20250102030405.zip" ∧
    (exportProject wbExpW "2025-01-02T03:04:05.678Z").map
        (fun pr => fileEntriesOf pr.1.entries) =
      some [("code/pkg.json", ZContent.zstr "P"), ("code/src/a.ts", ZContent.zstr "A"),
        ("metadata.json", ZContent.zjson (Json.jobj
          [("exportDate", Json.jstr "2025-01-02T03:04:05.678Z"),
           ("version", Json.jstr "1.0"), ("projectName", Json.jstr "my-app")]))] := by
  have h := exportProject_spec wbExpW "2025-01-02T03:04:05.678Z" (by decide) (by decide)
  constructor
  · rw [h.1]
    decide
  · rw [h.2]
    rfl

/-! ## Backup import without a code folder. -/

def metaX4 : Json := Json.jobj [("version", Json.jstr "1.0"),
  ("exportDate", Json.jstr "2025-01-01T000000.000Z")]

def zipX4 : List (String × ZEntry) :=
  [("metadata.json", ⟨false, ZContent.zjson metaX4⟩),
   ("chat_history.json", ⟨false, ZContent.zjson (Json.jarr [])⟩)]

def stX4 : WB := ⟨[], [], none, "code", [], [], [],
  some [⟨Json.jstr "old", Json.jarr [], Json.jnull, Json.jnull⟩],
  [("/home/project/a.txt", ZContent.zstr "x")]⟩

/-- C4, code bug: an archive with valid metadata.json and
chat_history.json but without a code folder passes the structure check,
because the zip library folder("code") creates the directory and never
returns null for a plain name, so the hasCodeFolder test the code
performs cannot fire; the import then reports success, clears and
overwrites the chat-history database, and wipes and rewrites the project
file system (restoring every archive entry, metadata files included),
instead of returning with the claimed error notification and unchanged
state. -/
theorem importProjectBackup_missing_code_folder :
    (importProjectBackup stX4 zipX4).2 = ImportOutcome.success ∧
    (importProjectBackup stX4 zipX4).1.db = some [] ∧
    stX4.db = some [⟨Json.jstr "old", Json.jarr [], Json.jnull, Json.jnull⟩] ∧
    (importProjectBackup stX4 zipX4).1.wcFs =
      [("/home/project/metadata.json", ZContent.zjson metaX4),
       ("/home/project/chat_history.json", ZContent.zjson (Json.jarr []))] :=
  ⟨rfl, rfl, rfl, rfl⟩

end Bolt
